import Mathlib

/-!
# Verification of the locky distributed lock library

Shallow embedding of the locky redis-backed lock manager
(`src/unnamed/part_002`, modern class: `lockPromise`, `refreshPromise`,
`unlockPromise`, `getLockerPromise`, `closePromise`, `runOperation`,
`startExpirateWorker`, `expireKeys`) together with the key codec
(`src/lib/resource-key.js`).

The redis store is modelled as a record holding the string keyspace
(`kv`), the native millisecond expiries (`pex`) and the members of the
single registry set `locky:current:locks` (`reg`).  Every state-changing
redis command used by the source is embedded as a pure function on this
record; a `multi` transaction is a sequential composition of those
functions evaluated atomically.  Events raised through `asyncEmit` are
collected in an ordered trace.  Fallible paths (the `runOperation`
rejection while closing) are embedded with `Except`.
-/

/-- A JavaScript value as it can appear in the `resource`/`locker`
positions of the public API: a string, a number, or `undefined`
(the missing-argument case). -/
inductive JSVal
  | str (s : String)
  | num (n : Int)
  | undef
deriving DecidableEq, Repr

/-- JavaScript string coercion as performed by `String(x)` and by
template literals: numbers print in decimal, `undefined` prints as
`"undefined"`. -/
def JSVal.toStr : JSVal → String
  | .str s => s
  | .num n => toString n
  | .undef => "undefined"

/-- JavaScript truthiness of the values we model (`!x` in the source is
the negation of this): the empty string, the number `0` and `undefined`
are falsy. -/
def JSVal.truthy : JSVal → Bool
  | .str s => if s = "" then false else true
  | .num n => if n = 0 then false else true
  | .undef => false

/-- The fixed namespace segment prepended by the key codec
(`resource-key.js`). -/
def lockKeyHead : String := "lock:resource:"

namespace resourceKey

/-- Function `format(id)` from `src/lib/resource-key.js`: the template literal
`lock:resource:${id}` (the interpolation string-coerces `id`). -/
def format (id : JSVal) : String := lockKeyHead ++ id.toStr

/-- Function `parse(key)` from `src/lib/resource-key.js`:
`key.replace(/^lock:resource:/, "")`, i.e. strip the namespace segment
when the key starts with it, otherwise return the key unchanged. -/
def parse (key : String) : String :=
  if key.data.take lockKeyHead.data.length = lockKeyHead.data
  then String.mk (key.data.drop lockKeyHead.data.length)
  else key

end resourceKey

theorem strData_append (a b : String) : (a ++ b).data = a.data ++ b.data := by
  cases a; cases b; rfl

theorem parse_format (id : JSVal) :
    resourceKey.parse (resourceKey.format id) = id.toStr := by
  unfold resourceKey.parse resourceKey.format
  rw [strData_append, List.take_left, if_pos rfl, List.drop_left]

/-- C8: KeyCodec round trip: for every non-empty string id, `parse`
applied to `format` of id returns id. -/
theorem claim_C8_roundtrip (id : String) (_hne : id ≠ "") :
    resourceKey.parse (resourceKey.format (.str id)) = id := by
  have := parse_format (.str id)
  simpa [JSVal.toStr] using this

theorem claim_C8_witness :
    "article" ≠ "" ∧
      resourceKey.parse (resourceKey.format (.str "article")) = "article" :=
  ⟨by decide, claim_C8_roundtrip "article" (by decide)⟩

/-! ## The redis store model -/

/-- The slice of the redis keyspace that the source touches: plain
string keys (`kv`), their native millisecond expiries (`pex`), and the
members of the single registry set `locky:current:locks` (`reg`). -/
structure Store where
  kv : String → Option String
  pex : String → Option Nat
  reg : List String

/-- Redis `GET k`: current value of the key, `none` when absent. -/
def Store.get (st : Store) (k : String) : Option String := st.kv k

/-- Redis `SET k v` (unconditional): writes the value and discards any native
expiry the key carried (redis `SET` without `KEEPTTL`). -/
def Store.setVal (st : Store) (k v : String) : Store :=
  { st with
    kv := fun k' => if k' = k then some v else st.kv k'
    pex := fun k' => if k' = k then none else st.pex k' }

/-- Redis `SETNX k v`: writes only when the key is absent; result `1` when the
write happened, `0` otherwise. -/
def Store.setnx (st : Store) (k v : String) : Nat × Store :=
  if (st.kv k).isSome then (0, st) else (1, st.setVal k v)

/-- Redis `PEXPIRE k t`: sets the native expiry of an existing key; result `1`
when the key exists, `0` otherwise. -/
def Store.pexpire (st : Store) (k : String) (t : Nat) : Nat × Store :=
  if (st.kv k).isSome then
    (1, { st with pex := fun k' => if k' = k then some t else st.pex k' })
  else (0, st)

/-- Redis `PTTL k`: `-2` when the key does not exist, `-1` when it exists
without a native expiry, otherwise the remaining expiry. -/
def Store.pttl (st : Store) (k : String) : Int :=
  if (st.kv k).isSome then
    (match st.pex k with
     | some t => (t : Int)
     | none => -1)
  else -2

/-- Redis `SADD set m` on the registry set: adds the member when new. -/
def Store.sadd (st : Store) (m : String) : Store :=
  if m ∈ st.reg then st else { st with reg := st.reg ++ [m] }

/-- Redis `SREM set ms` on the registry set: removes all listed members. -/
def Store.sremList (st : Store) (ms : List String) : Store :=
  { st with reg := st.reg.filter (fun k => !decide (k ∈ ms)) }

/-- Redis `DEL k`: removes the key and its expiry; result is the number of
keys actually deleted (`1` or `0`). -/
def Store.del (st : Store) (k : String) : Nat × Store :=
  ((if (st.kv k).isSome then 1 else 0),
   { st with
     kv := fun k' => if k' = k then none else st.kv k'
     pex := fun k' => if k' = k then none else st.pex k' })

/-! ## The Locky client state -/

/-- Notifications delivered through `asyncEmit`, in emission order.
`lock` carries the raw `resource`/`locker` arguments, `unlock` the raw
resource, `expire` the parsed resource id, mirroring the source. -/
inductive Event
  | lock (resource locker : JSVal)
  | unlock (resource : String)
  | expire (resource : String)
  | error
deriving DecidableEq, Repr

/-- Rejection kinds of an operation: the distinct "Locky is closing"
error thrown by `runOperation`, or a store/transport failure. -/
inductive LockyError
  | closing
  | store
deriving DecidableEq, Repr

/-- One Locky client plus the shared store it talks to: the store, the
trace of events emitted so far, the `closing` flag consulted by
`runOperation`, the configured `ttl` (`none` disables native expiry),
and the delay of the pending expiration-worker timer, when one was
scheduled (`setTimeout` delay in ms). -/
structure LockyState where
  store : Store
  events : List Event
  closing : Bool
  ttl : Option Nat
  nextRunIn : Option Nat

/-- The well-known leader-token key of the expiration worker. -/
def expirateResource : String := "locky:expirate:worker"

/-! ## LockManager operations (modern `part_002` class) -/

/-- Method `lockPromise({resource, locker, force})`: inside `runOperation`
(closing check), format the key, no-op success on a falsy key or
locker, then one `multi` transaction: `SADD` the key into the registry,
`SET`/`SETNX` the key to `String(locker)`, and — whenever a ttl is
configured — `PEXPIRE` the key, queued unconditionally.  The result is
`setResult !== 0`; on success the `lock` event is emitted
asynchronously. -/
def lockPromise (s : LockyState) (resource locker : JSVal) (force : Bool) :
    Except LockyError (Bool × LockyState) :=
  if s.closing then .error .closing else
  let key := resourceKey.format resource
  if key = "" then .ok (true, s) else
  if locker.truthy = false then .ok (true, s) else
  let st1 := s.store.sadd key
  let (setResult, st2) :=
    if force then (1, st1.setVal key locker.toStr)
    else st1.setnx key locker.toStr
  let st3 :=
    match s.ttl with
    | some t => (st2.pexpire key t).2
    | none => st2
  let success := setResult ≠ 0
  if success then
    .ok (true,
      { s with store := st3, events := s.events ++ [.lock resource locker] })
  else
    .ok (false, { s with store := st3 })

/-- Method `refreshPromise(resource)`: inside `runOperation`; no-op `true`
without a configured ttl, otherwise `PEXPIRE` the key and return
whether the redis reply was `1`. -/
def refreshPromise (s : LockyState) (resource : String) :
    Except LockyError (Bool × LockyState) :=
  if s.closing then .error .closing else
  match s.ttl with
  | none => .ok (true, s)
  | some t =>
    let key := resourceKey.format (.str resource)
    let (res, st') := s.store.pexpire key t
    .ok (decide (res = 1), { s with store := st' })

/-- Method `unlockPromise(resource)`: inside `runOperation`; one `multi`
transaction `SREM` + `DEL`, success is the `DEL` reply `!== 0`, and the
`unlock` event is emitted asynchronously only on success. -/
def unlockPromise (s : LockyState) (resource : String) :
    Except LockyError (Bool × LockyState) :=
  if s.closing then .error .closing else
  let key := resourceKey.format (.str resource)
  let st1 := s.store.sremList [key]
  let (res, st2) := st1.del key
  if res ≠ 0 then
    .ok (true,
      { s with store := st2, events := s.events ++ [.unlock resource] })
  else
    .ok (false, { s with store := st2 })

/-- Method `getLockerPromise(resource)`: inside `runOperation`; a plain `GET`
of the formatted key. -/
def getLockerPromise (s : LockyState) (resource : String) :
    Except LockyError (Option String × LockyState) :=
  if s.closing then .error .closing else
  .ok (s.store.get (resourceKey.format (.str resource)), s)

/-! ## Basic store lemmas -/

@[simp] theorem Store.sadd_kv (st : Store) (m : String) :
    (st.sadd m).kv = st.kv := by
  unfold Store.sadd; split <;> rfl

@[simp] theorem Store.sadd_pex (st : Store) (m : String) :
    (st.sadd m).pex = st.pex := by
  unfold Store.sadd; split <;> rfl

@[simp] theorem Store.pexpire_kv (st : Store) (k : String) (t : Nat) :
    ((st.pexpire k t).2).kv = st.kv := by
  unfold Store.pexpire; split <;> rfl

@[simp] theorem Store.pexpire_reg (st : Store) (k : String) (t : Nat) :
    ((st.pexpire k t).2).reg = st.reg := by
  unfold Store.pexpire; split <;> rfl

@[simp] theorem Store.setVal_reg (st : Store) (k v : String) :
    (st.setVal k v).reg = st.reg := rfl

@[simp] theorem Store.setVal_kv_self (st : Store) (k v : String) :
    (st.setVal k v).kv k = some v := by
  unfold Store.setVal; simp

theorem Store.setVal_kv_other (st : Store) (k v k' : String) (h : k' ≠ k) :
    (st.setVal k v).kv k' = st.kv k' := by
  unfold Store.setVal; simp [h]

theorem truthy_str {a : String} (h : a ≠ "") :
    JSVal.truthy (.str a) = true := by
  simp [JSVal.truthy, h]

theorem format_ne_empty (v : JSVal) : resourceKey.format v ≠ "" := by
  intro h
  have h2 := congrArg String.data h
  rw [resourceKey.format, strData_append] at h2
  have h3 : lockKeyHead.data = [] := (List.append_eq_nil.mp h2).1
  exact absurd h3 (by decide)

/-! ## Success and failure shapes of `lockPromise` -/

/-- Store effect of a `lockPromise` transaction whose `SET`/`SETNX`
wrote the key: registry `SADD`, the write, and the unconditional
`PEXPIRE` when a ttl is configured. -/
def lockStoreWrite (st : Store) (key v : String) (ttl : Option Nat) : Store :=
  match ttl with
  | some t => (((st.sadd key).setVal key v).pexpire key t).2
  | none => (st.sadd key).setVal key v

/-- Store effect of a `lockPromise` transaction whose `SETNX` found the
key already present: registry `SADD` and the unconditional `PEXPIRE`
alone. -/
def lockStoreSkip (st : Store) (key : String) (ttl : Option Nat) : Store :=
  match ttl with
  | some t => ((st.sadd key).pexpire key t).2
  | none => st.sadd key

theorem lockStoreWrite_kv_self (st : Store) (key v : String) (ttl : Option Nat) :
    (lockStoreWrite st key v ttl).kv key = some v := by
  unfold lockStoreWrite
  cases ttl <;> simp

theorem lockStoreSkip_kv (st : Store) (key : String) (ttl : Option Nat) :
    (lockStoreSkip st key ttl).kv = st.kv := by
  unfold lockStoreSkip
  cases ttl <;> simp

/-- The Locky state after a `lockPromise` whose write succeeded. -/
def lockedState (s : LockyState) (resource locker : JSVal) : LockyState :=
  { s with
    store := lockStoreWrite s.store (resourceKey.format resource)
      locker.toStr s.ttl
    events := s.events ++ [.lock resource locker] }

/-- The Locky state after a `lockPromise` whose `SETNX` found the key
taken. -/
def lockFailState (s : LockyState) (resource : JSVal) : LockyState :=
  { s with
    store := lockStoreSkip s.store (resourceKey.format resource) s.ttl }

theorem lockPromise_success (s : LockyState) (resource locker : JSVal)
    (force : Bool) (hcl : s.closing = false) (hl : locker.truthy = true)
    (hw : force = true ∨
      s.store.kv (resourceKey.format resource) = none) :
    lockPromise s resource locker force =
      .ok (true, lockedState s resource locker) := by
  unfold lockPromise Store.setnx lockedState lockStoreWrite
  rcases hw with hf | hk
  · subst hf
    cases s.ttl <;>
      simp [hcl, format_ne_empty resource, hl]
  · cases force <;> cases s.ttl <;>
      simp [hcl, format_ne_empty resource, hl, hk]

theorem lockPromise_taken (s : LockyState) (resource locker : JSVal)
    (v : String) (hcl : s.closing = false) (hl : locker.truthy = true)
    (hk : s.store.kv (resourceKey.format resource) = some v) :
    lockPromise s resource locker false =
      .ok (false, lockFailState s resource) := by
  unfold lockPromise Store.setnx lockFailState lockStoreSkip
  cases s.ttl <;>
    simp [hcl, format_ne_empty resource, hl, hk]

@[simp] theorem lockedState_closing (s : LockyState) (resource locker : JSVal) :
    (lockedState s resource locker).closing = s.closing := rfl

@[simp] theorem lockedState_events (s : LockyState) (resource locker : JSVal) :
    (lockedState s resource locker).events =
      s.events ++ [.lock resource locker] := rfl

@[simp] theorem lockedState_ttl (s : LockyState) (resource locker : JSVal) :
    (lockedState s resource locker).ttl = s.ttl := rfl

theorem lockedState_kv_self (s : LockyState) (resource locker : JSVal) :
    (lockedState s resource locker).store.kv (resourceKey.format resource) =
      some locker.toStr :=
  lockStoreWrite_kv_self s.store (resourceKey.format resource) locker.toStr s.ttl

@[simp] theorem lockFailState_closing (s : LockyState) (resource : JSVal) :
    (lockFailState s resource).closing = s.closing := rfl

@[simp] theorem lockFailState_events (s : LockyState) (resource : JSVal) :
    (lockFailState s resource).events = s.events := rfl

@[simp] theorem lockFailState_kv (s : LockyState) (resource : JSVal) :
    (lockFailState s resource).store.kv = s.store.kv :=
  lockStoreSkip_kv s.store (resourceKey.format resource) s.ttl

/-! ## C1: lock / getLocker / force interplay -/

/-- C1: after a successful lock of `r` by `a`, `getLocker r` returns
`a`; a second `lock(r, b)` without force returns `false`, leaves the
locker at `a` and emits nothing; a `lock(r, b)` with force returns
`true`, `getLocker r` then returns `b`, and a second `lock` event is
raised.  The acquisition premise `hacq` states that the first lock
succeeds (forced, or the key is free). -/
theorem claim_C1_lock_getLocker_force (s : LockyState) (r a b : String)
    (f1 : Bool) (hcl : s.closing = false) (ha : a ≠ "") (hb : b ≠ "")
    (hacq : f1 = true ∨ s.store.kv (resourceKey.format (.str r)) = none) :
    ∃ s1 s2 s3,
      lockPromise s (.str r) (.str a) f1 = .ok (true, s1) ∧
      getLockerPromise s1 r = .ok (some a, s1) ∧
      s1.events = s.events ++ [.lock (.str r) (.str a)] ∧
      lockPromise s1 (.str r) (.str b) false = .ok (false, s2) ∧
      getLockerPromise s2 r = .ok (some a, s2) ∧
      s2.events = s1.events ∧
      lockPromise s2 (.str r) (.str b) true = .ok (true, s3) ∧
      getLockerPromise s3 r = .ok (some b, s3) ∧
      s3.events = s2.events ++ [.lock (.str r) (.str b)] := by
  have hkey : (lockedState s (.str r) (.str a)).store.kv
      (resourceKey.format (.str r)) = some a := by
    simpa [JSVal.toStr] using lockedState_kv_self s (.str r) (.str a)
  refine ⟨lockedState s (.str r) (.str a),
    lockFailState (lockedState s (.str r) (.str a)) (.str r),
    lockedState (lockFailState (lockedState s (.str r) (.str a)) (.str r))
      (.str r) (.str b),
    lockPromise_success s (.str r) (.str a) f1 hcl (truthy_str ha) hacq,
    ?_, rfl,
    lockPromise_taken (lockedState s (.str r) (.str a)) (.str r) (.str b) a
      hcl (truthy_str hb) hkey,
    ?_, rfl,
    lockPromise_success (lockFailState (lockedState s (.str r) (.str a)) (.str r))
      (.str r) (.str b) true hcl (truthy_str hb) (.inl rfl),
    ?_, rfl⟩
  · simp [getLockerPromise, Store.get, hcl, hkey]
  · simp [getLockerPromise, Store.get, hcl, hkey]
  · have h3 : (lockedState (lockFailState (lockedState s (.str r) (.str a))
        (.str r)) (.str r) (.str b)).store.kv
        (resourceKey.format (.str r)) = some b := by
      simpa [JSVal.toStr] using lockedState_kv_self
        (lockFailState (lockedState s (.str r) (.str a)) (.str r))
        (.str r) (.str b)
    simp [getLockerPromise, Store.get, hcl, h3]

/-- A store with no keys, no expiries and an empty registry. -/
def emptyStore : Store :=
  { kv := fun _ => none, pex := fun _ => none, reg := [] }

/-- A freshly constructed client over an empty store, no ttl. -/
def freshState : LockyState :=
  { store := emptyStore, events := [], closing := false, ttl := none
    nextRunIn := none }

theorem claim_C1_witness :
    freshState.closing = false ∧ "alice" ≠ "" ∧ "bob" ≠ "" ∧
    (false = true ∨
      freshState.store.kv (resourceKey.format (.str "r1")) = none) ∧
    (∃ s1 s2 s3,
      lockPromise freshState (.str "r1") (.str "alice") false =
        .ok (true, s1) ∧
      getLockerPromise s1 "r1" = .ok (some "alice", s1) ∧
      s1.events = freshState.events ++ [.lock (.str "r1") (.str "alice")] ∧
      lockPromise s1 (.str "r1") (.str "bob") false = .ok (false, s2) ∧
      getLockerPromise s2 "r1" = .ok (some "alice", s2) ∧
      s2.events = s1.events ∧
      lockPromise s2 (.str "r1") (.str "bob") true = .ok (true, s3) ∧
      getLockerPromise s3 "r1" = .ok (some "bob", s3) ∧
      s3.events = s2.events ++ [.lock (.str "r1") (.str "bob")]) :=
  ⟨rfl, by decide, by decide, .inr rfl,
    claim_C1_lock_getLocker_force freshState "r1" "alice" "bob" false rfl
      (by decide) (by decide) (.inr rfl)⟩

/-! ## C3: unlock semantics -/

/-- C3: `unlock r` removes the key from the registry and deletes the
key in the same transaction; it returns `true` iff a key was actually
deleted, and the `unlock` event is raised exactly in that case.  No
other key or registry member is touched. -/
theorem claim_C3_unlock_semantics (s : LockyState) (r : String)
    (hcl : s.closing = false) :
    ∃ s', unlockPromise s r =
        .ok ((s.store.kv (resourceKey.format (.str r))).isSome, s') ∧
      resourceKey.format (.str r) ∉ s'.store.reg ∧
      s'.store.kv (resourceKey.format (.str r)) = none ∧
      (∀ k, k ≠ resourceKey.format (.str r) →
        s'.store.kv k = s.store.kv k ∧
        (k ∈ s'.store.reg ↔ k ∈ s.store.reg)) ∧
      s'.events = s.events ++
        (if (s.store.kv (resourceKey.format (.str r))).isSome then
          [.unlock r] else []) := by
  cases hk : s.store.kv (resourceKey.format (.str r)) with
  | none =>
    simp only [unlockPromise, hcl, Bool.false_eq_true, if_false,
      Store.sremList, Store.del, hk, Option.isSome_none]
    refine ⟨_, rfl, ?_, ?_, ?_, ?_⟩
    · simp
    · simp
    · intro k hkne
      simp [hkne]
    · simp
  | some v =>
    simp only [unlockPromise, hcl, Bool.false_eq_true, if_false,
      Store.sremList, Store.del, hk, Option.isSome_some]
    refine ⟨_, rfl, ?_, ?_, ?_, ?_⟩
    · simp
    · simp
    · intro k hkne
      simp [hkne]
    · simp

theorem claim_C3_witness :
    freshState.closing = false ∧
    (∃ s', unlockPromise freshState "ghost" =
        .ok ((freshState.store.kv
          (resourceKey.format (.str "ghost"))).isSome, s') ∧
      resourceKey.format (.str "ghost") ∉ s'.store.reg ∧
      s'.store.kv (resourceKey.format (.str "ghost")) = none ∧
      (∀ k, k ≠ resourceKey.format (.str "ghost") →
        s'.store.kv k = freshState.store.kv k ∧
        (k ∈ s'.store.reg ↔ k ∈ freshState.store.reg)) ∧
      s'.events = freshState.events ++
        (if (freshState.store.kv
          (resourceKey.format (.str "ghost"))).isSome then
          [.unlock "ghost"] else [])) :=
  ⟨rfl, claim_C3_unlock_semantics freshState "ghost" rfl⟩

/-! ## C7: missing identifiers -/

/-- C7 (amended): a call to `lock` whose locker identifier is missing
returns `true` and leaves the state untouched: no key written, no
registry entry added, no event raised.  (A missing *resource* does not
short-circuit: see the counterexample.) -/
theorem claim_C7_missing_locker_noop (s : LockyState) (resource : JSVal)
    (f : Bool) (hcl : s.closing = false) :
    lockPromise s resource .undef f = .ok (true, s) := by
  unfold lockPromise
  simp [hcl, format_ne_empty resource, JSVal.truthy]

/-- C7 counterexample: a `lock` call with a **missing resource** but a
present locker does *not* leave the store unchanged — `format`
stringifies `undefined` into the key `lock:resource:undefined`, which
passes the dead `if (!key)` guard, so the key is written, a registry
entry is added, and a `lock` event is raised.  This falsifies the claim
"for every call in which the resource identifier or the locker
identifier is missing, ... leaves the store unchanged". -/
theorem claim_C7_counterexample :
    ∃ s', lockPromise freshState .undef (.str "john") false =
        .ok (true, s') ∧
      s'.store.kv "lock:resource:undefined" = some "john" ∧
      s'.store.reg = ["lock:resource:undefined"] ∧
      s'.events = [.lock .undef (.str "john")] ∧
      freshState.store.kv "lock:resource:undefined" = none ∧
      freshState.store.reg = [] ∧ freshState.events = [] :=
  ⟨_, rfl, rfl, rfl, rfl, rfl, rfl, rfl⟩

theorem claim_C7_witness :
    freshState.closing = false ∧
      lockPromise freshState (.str "article") .undef false =
        .ok (true, freshState) :=
  ⟨rfl, claim_C7_missing_locker_noop freshState (.str "article") false rfl⟩

/-! ## C10: number lockers are stored string-coerced -/

theorem truthy_num {l : Int} (h : l ≠ 0) :
    JSVal.truthy (.num l) = true := by
  simp [JSVal.truthy, h]

/-- C10: `lock` stores `String(locker)`: a successful lock with a
(truthy) number locker `l` makes `getLocker` return the decimal string
form of `l`, which is not the number value itself — only string lockers
round-trip exactly (C1 shows the exact round trip for strings). -/
theorem claim_C10_number_locker_coerced (s : LockyState) (r : String)
    (l : Int) (f : Bool) (hcl : s.closing = false) (hl : l ≠ 0)
    (hacq : f = true ∨ s.store.kv (resourceKey.format (.str r)) = none) :
    ∃ s1, lockPromise s (.str r) (.num l) f = .ok (true, s1) ∧
      getLockerPromise s1 r = .ok (some (toString l), s1) ∧
      JSVal.str (toString l) ≠ JSVal.num l := by
  refine ⟨lockedState s (.str r) (.num l),
    lockPromise_success s (.str r) (.num l) f hcl (truthy_num hl) hacq,
    ?_, by simp⟩
  have hkey : (lockedState s (.str r) (.num l)).store.kv
      (resourceKey.format (.str r)) = some (toString l) := by
    simpa [JSVal.toStr] using lockedState_kv_self s (.str r) (.num l)
  simp [getLockerPromise, Store.get, hcl, hkey]

theorem claim_C10_witness :
    freshState.closing = false ∧ ((42 : Int) ≠ 0) ∧
    (false = true ∨
      freshState.store.kv (resourceKey.format (.str "r9")) = none) ∧
    (∃ s1, lockPromise freshState (.str "r9") (.num 42) false =
        .ok (true, s1) ∧
      getLockerPromise s1 "r9" = .ok (some (toString (42 : Int)), s1) ∧
      JSVal.str (toString (42 : Int)) ≠ JSVal.num 42) :=
  ⟨rfl, by decide, .inr rfl,
    claim_C10_number_locker_coerced freshState "r9" 42 false rfl
      (by decide) (.inr rfl)⟩

/-! ## The expiration sweep (`expireKeys`) -/

/-- The `keysToExpire` computation of `expireKeys`: pair every registry
member with its `PTTL` reply from the batched round trip and keep the
keys whose reply is `-2` ("key does not exist"). -/
def expiredOf (st : Store) : List String :=
  ((st.reg.zip (st.reg.map st.pttl)).filter
    (fun p => decide (p.2 = (-2 : Int)))).map Prod.fst

/-- Method `expireKeys()` from the modern `part_002` class: `SMEMBERS` the
registry (early return when empty), query every member's `PTTL` in one
batch, filter the replies equal to `-2` (early return when none), then
run the removal transaction (`WATCH`+`SREM`; `WATCH` cannot abort in
this sequential model since no concurrent writer runs inside the
atomic step) and finally emit one `expire(parse key)` event per
collected key. -/
def expireKeys (s : LockyState) : LockyState :=
  if s.store.reg = [] then s
  else if expiredOf s.store = [] then s
  else
    { s with
      store := s.store.sremList (expiredOf s.store)
      events := s.events ++ (expiredOf s.store).map
        (fun k => Event.expire (resourceKey.parse k)) }

theorem zip_pttl_filter (f : String → Int) (l : List String) :
    ((l.zip (l.map f)).filter (fun p => decide (p.2 = (-2 : Int)))).map
        Prod.fst =
      l.filter (fun k => decide (f k = (-2 : Int))) := by
  induction l with
  | nil => rfl
  | cons x xs ih =>
    simp only [List.map_cons, List.zip_cons_cons, List.filter_cons]
    by_cases h : f x = -2 <;> simp [h, ih]

theorem expiredOf_eq_filter (st : Store) :
    expiredOf st = st.reg.filter (fun k => decide (st.pttl k = (-2 : Int))) :=
  zip_pttl_filter st.pttl st.reg

/-- C2: one sweep reads the registry, partitions it by the batched
`PTTL` replies, removes from the registry exactly the members whose key
no longer exists (reply `-2`), leaves the live members and the whole
keyspace untouched, and emits exactly one `expire` event per removed
key — carrying the parsed resource id — appended after the removal. -/
theorem claim_C2_sweep_partition (s : LockyState)
    (hnd : s.store.reg.Nodup) :
    (∀ k, k ∈ (expireKeys s).store.reg ↔
      k ∈ s.store.reg ∧ s.store.pttl k ≠ -2) ∧
    (expireKeys s).events = s.events ++
      (s.store.reg.filter
        (fun k => decide (s.store.pttl k = (-2 : Int)))).map
        (fun k => Event.expire (resourceKey.parse k)) ∧
    (expireKeys s).store.kv = s.store.kv ∧
    (expireKeys s).store.pex = s.store.pex ∧
    (∀ k, k ∈ s.store.reg → s.store.pttl k = -2 →
      (s.store.reg.filter
        (fun k => decide (s.store.pttl k = (-2 : Int)))).count k = 1) := by
  have hcount : ∀ k, k ∈ s.store.reg → s.store.pttl k = -2 →
      (s.store.reg.filter
        (fun k => decide (s.store.pttl k = (-2 : Int)))).count k = 1 := by
    intro k hk hp
    have hmem : k ∈ s.store.reg.filter
        (fun k => decide (s.store.pttl k = (-2 : Int))) := by
      simp [List.mem_filter, hk, hp]
    exact List.count_eq_one_of_mem (hnd.filter _) hmem
  unfold expireKeys
  by_cases h0 : s.store.reg = []
  · simp [h0, expiredOf_eq_filter, hcount]
  · rw [if_neg h0]
    by_cases h1 : expiredOf s.store = []
    · rw [if_pos h1]
      rw [expiredOf_eq_filter] at h1
      have hall := List.filter_eq_nil_iff.mp h1
      refine ⟨?_, ?_, rfl, rfl, hcount⟩
      · intro k
        constructor
        · intro hk
          refine ⟨hk, ?_⟩
          have := hall k hk
          simpa using this
        · exact fun hk => hk.1
      · rw [h1]
        simp
    · rw [if_neg h1, expiredOf_eq_filter]
      refine ⟨?_, rfl, rfl, rfl, hcount⟩
      intro k
      simp only [Store.sremList, List.mem_filter, expiredOf_eq_filter]
      constructor
      · rintro ⟨hk, hnot⟩
        refine ⟨hk, ?_⟩
        simpa [List.mem_filter, hk] using hnot
      · rintro ⟨hk, hne⟩
        refine ⟨hk, ?_⟩
        simpa [List.mem_filter, hk] using hne

/-- A store in which `lock:resource:y` is still alive but
`lock:resource:x` has vanished while both sit in the registry. -/
def sweepStore : Store :=
  { kv := fun k => if k = "lock:resource:y" then some "john" else none
    pex := fun _ => none
    reg := ["lock:resource:x", "lock:resource:y"] }

/-- A client state over `sweepStore` with a configured ttl. -/
def sweepState : LockyState :=
  { store := sweepStore, events := [], closing := false, ttl := some 1000
    nextRunIn := none }

theorem claim_C2_witness :
    sweepState.store.reg.Nodup ∧
    ((∀ k, k ∈ (expireKeys sweepState).store.reg ↔
      k ∈ sweepState.store.reg ∧ sweepState.store.pttl k ≠ -2) ∧
    (expireKeys sweepState).events = sweepState.events ++
      (sweepState.store.reg.filter
        (fun k => decide (sweepState.store.pttl k = (-2 : Int)))).map
        (fun k => Event.expire (resourceKey.parse k)) ∧
    (expireKeys sweepState).store.kv = sweepState.store.kv ∧
    (expireKeys sweepState).store.pex = sweepState.store.pex ∧
    (∀ k, k ∈ sweepState.store.reg → sweepState.store.pttl k = -2 →
      (sweepState.store.reg.filter
        (fun k => decide (sweepState.store.pttl k = (-2 : Int)))).count
          k = 1)) :=
  ⟨by decide, claim_C2_sweep_partition sweepState (by decide)⟩

/-! ## One poll cycle of the expiration worker -/

/-- One iteration of `run()` inside `startExpirateWorker()` (modern
`part_002` class): inside a `try`, `runOperation` (whose closing check
throws into the `catch`), then the election transaction — a `MULTI`
queueing `SETNX token "OK"` **and, unconditionally, `PEXPIRE token
ttl`** — then, only when the `SETNX` reply was `1`: the sweep
(`expireKeys`) followed by `DEL token`.  Any error thrown inside the
`try` (modelled by `sweepFault`, a store failure raised by the sweep)
is caught and emitted as an `error` event, skipping the `DEL`.  In
every case the `finally`-less tail schedules the next cycle via
`setTimeout(run, ttl / 10)`.  A cycle only exists when a ttl is
configured (`startExpirateWorker` throws otherwise), hence the `match`.
-/
def runCycle (s : LockyState) (sweepFault : Bool) : LockyState :=
  match s.ttl with
  | none => s
  | some t =>
    if s.closing then
      { s with events := s.events ++ [.error], nextRunIn := some (t / 10) }
    else
      let (r1, stA) := s.store.setnx expirateResource "OK"
      let (_, stB) := stA.pexpire expirateResource t
      if r1 ≠ 0 then
        if sweepFault then
          { s with store := stB, events := s.events ++ [.error],
                   nextRunIn := some (t / 10) }
        else
          let s2 := expireKeys { s with store := stB }
          let (_, stC) := s2.store.del expirateResource
          { s2 with store := stC, nextRunIn := some (t / 10) }
      else
        { s with store := stB, nextRunIn := some (t / 10) }

/-- A store in which another worker instance currently holds the leader
token with 3 ms left on it. -/
def heldTokenStore : Store :=
  { kv := fun k => if k = expirateResource then some "OK" else none
    pex := fun k => if k = expirateResource then some 3 else none
    reg := [] }

/-- A second worker instance (ttl 1000 ms) about to run its poll cycle
while the token above is held by someone else. -/
def otherHolderState : LockyState :=
  { store := heldTokenStore, events := [], closing := false
    ttl := some 1000, nextRunIn := none }

/-- C5 is violated by the code: the election `MULTI` queues the
`PEXPIRE` of the leader token *unconditionally* after the `SETNX`, so
an instance whose conditional creation fails (`SETNX` reply `0`)
still resets the token's expiry to its own ttl (here 3 ms → 1000 ms)
even though it correctly skips the sweep and proceeds to cooldown.
The spec's "renewed only by its owner" is the documented intent (the
older generation guarded the `PEXPIRE` behind the `SETNX` reply, and
the newest generation uses the atomic `SET NX PX`); this transaction
shape is the slip. -/
theorem claim_C5_loser_extends_token :
    (runCycle otherHolderState false).store.kv expirateResource =
      some "OK" ∧
    otherHolderState.store.pex expirateResource = some 3 ∧
    (runCycle otherHolderState false).store.pex expirateResource =
      some 1000 ∧
    (runCycle otherHolderState false).events = [] ∧
    (runCycle otherHolderState false).store.reg =
      otherHolderState.store.reg ∧
    (runCycle otherHolderState false).nextRunIn = some 100 :=
  ⟨rfl, rfl, rfl, rfl, rfl, rfl⟩

/-- A sweep cycle about to fail: token free, one vanished key in the
registry, ttl 1000 ms. -/
def faultCycleState : LockyState :=
  { store := { kv := fun _ => none, pex := fun _ => none
               reg := ["lock:resource:x"] }
    events := [], closing := false, ttl := some 1000, nextRunIn := none }

/-- C6 counterexample: when a store operation inside the sweep fails,
the error is caught and raised and the next cycle is scheduled — but
the leader token is **not** released: the claim's "(the leader token is
released)" fails, since the `DEL` sits after `expireKeys()` inside the
`try` and is skipped when the sweep throws. -/
theorem claim_C6_counterexample :
    (runCycle faultCycleState true).events = [.error] ∧
    (runCycle faultCycleState true).nextRunIn = some 100 ∧
    (runCycle faultCycleState true).store.kv expirateResource =
      some "OK" :=
  ⟨rfl, rfl, rfl⟩

/-- C6 (amended): a store failure inside the sweep is caught and raised
as an `error` event, and the next poll cycle is still scheduled after
one tenth of the ttl — no single failed cycle halts the polling loop —
but the leader token is *not* deleted by the failing cycle: it stays in
the store (until its own expiry lapses). -/
theorem claim_C6_sweep_error_caught (s : LockyState) (t : Nat)
    (htl : s.ttl = some t) (hcl : s.closing = false)
    (htok : s.store.kv expirateResource = none) :
    (runCycle s true).events = s.events ++ [.error] ∧
    (runCycle s true).nextRunIn = some (t / 10) ∧
    (runCycle s true).store.kv expirateResource = some "OK" := by
  unfold runCycle
  rw [htl]
  simp [hcl, Store.setnx, Store.setVal, Store.pexpire, htok]

theorem claim_C6_witness :
    faultCycleState.ttl = some 1000 ∧ faultCycleState.closing = false ∧
    faultCycleState.store.kv expirateResource = none ∧
    ((runCycle faultCycleState true).events =
      faultCycleState.events ++ [.error] ∧
    (runCycle faultCycleState true).nextRunIn = some (1000 / 10) ∧
    (runCycle faultCycleState true).store.kv expirateResource =
      some "OK") :=
  ⟨rfl, rfl, rfl, claim_C6_sweep_error_caught faultCycleState 1000 rfl rfl rfl⟩

/-! ## C4: shutdown -/

/-- The in-process bookkeeping of `runOperation`/`closePromise`: the
`closing` flag, the `pendingOperations` array (operation ids), and
whether `quitAsync()` has run. -/
structure CloseState where
  closing : Bool
  pending : List Nat
  quitDone : Bool
deriving DecidableEq, Repr

/-- Interleaved execution of the client shutdown protocol, read off
`runOperation` and `closePromise`:
* `register` — `runOperation` pushes a new operation, only when not
  closing (otherwise it throws before registering anything);
* `complete` — the `finally` of a registered operation splices it out;
* `beginClose` — `closePromise` flips `closing` (idempotent guard);
* `quit` — `closePromise` calls `quitAsync()` only after
  `Promise.allSettled(pendingOperations)` has drained the list. -/
inductive CloseStep : CloseState → CloseState → Prop
  | register (c : CloseState) (i : Nat) : c.closing = false →
      CloseStep c { c with pending := c.pending ++ [i] }
  | complete (c : CloseState) (i : Nat) : i ∈ c.pending →
      CloseStep c { c with pending := c.pending.erase i }
  | beginClose (c : CloseState) : c.closing = false →
      CloseStep c { c with closing := true }
  | quit (c : CloseState) : c.closing = true → c.pending = [] →
      CloseStep c { c with quitDone := true }

/-- States reachable from a fresh client (not closing, nothing
pending, connection open). -/
inductive CloseReach : CloseState → Prop
  | init : CloseReach ⟨false, [], false⟩
  | step {c c' : CloseState} :
      CloseReach c → CloseStep c c' → CloseReach c'

/-- C4: once close has begun, each of the four operations is rejected
with the distinct closing error instead of executing (no new state is
produced at all), and in every reachable execution the connection is
released (`quit`) only with `closing` set and the pending list fully
drained — every operation accepted before close completed first. -/
theorem claim_C4_closing_rejects_and_drains :
    (∀ (s : LockyState) (resource locker : JSVal) (force : Bool),
      s.closing = true →
      lockPromise s resource locker force = .error .closing) ∧
    (∀ (s : LockyState) (r : String), s.closing = true →
      refreshPromise s r = .error .closing) ∧
    (∀ (s : LockyState) (r : String), s.closing = true →
      unlockPromise s r = .error .closing) ∧
    (∀ (s : LockyState) (r : String), s.closing = true →
      getLockerPromise s r = .error .closing) ∧
    (∀ c, CloseReach c → c.quitDone = true →
      c.closing = true ∧ c.pending = []) := by
  refine ⟨?_, ?_, ?_, ?_, ?_⟩
  · intro s resource locker force h
    simp [lockPromise, h]
  · intro s r h
    simp [refreshPromise, h]
  · intro s r h
    simp [unlockPromise, h]
  · intro s r h
    simp [getLockerPromise, h]
  · intro c hr
    induction hr with
    | init => intro h; exact absurd h (by decide)
    | step _ hstep ih =>
      intro hq
      cases hstep with
      | register i hcl => exact absurd (ih hq).1 (by simp [hcl])
      | complete i hi =>
        exact ⟨(ih hq).1, by simp [(ih hq).2]⟩
      | beginClose hcl => exact absurd (ih hq).1 (by simp [hcl])
      | quit hcl hp => exact ⟨hcl, hp⟩

/-- A client state whose shutdown has begun. -/
def closedState : LockyState :=
  { store := emptyStore, events := [], closing := true, ttl := none
    nextRunIn := none }

theorem claim_C4_witness :
    (closedState.closing = true ∧
      lockPromise closedState (.str "r") (.str "l") false =
        .error .closing ∧
      refreshPromise closedState "r" = .error .closing ∧
      unlockPromise closedState "r" = .error .closing ∧
      getLockerPromise closedState "r" = .error .closing) ∧
    ((CloseState.mk true [] true).quitDone = true ∧
      (CloseState.mk true [] true).closing = true ∧
      (CloseState.mk true [] true).pending = []) := by
  have hreach : CloseReach ⟨true, [], true⟩ :=
    .step (.step .init (.beginClose _ rfl)) (.quit _ rfl rfl)
  refine ⟨⟨rfl, ?_, ?_, ?_, ?_⟩, rfl, ?_⟩
  · exact claim_C4_closing_rejects_and_drains.1 closedState
      (.str "r") (.str "l") false rfl
  · exact claim_C4_closing_rejects_and_drains.2.1 closedState "r" rfl
  · exact claim_C4_closing_rejects_and_drains.2.2.1 closedState "r" rfl
  · exact claim_C4_closing_rejects_and_drains.2.2.2.1 closedState "r" rfl
  · exact claim_C4_closing_rejects_and_drains.2.2.2.2 _ hreach rfl

/-! ## C9: two expiration workers against one store

Interleaving model of two worker instances sharing one store while no
client mutates it.  Each instance runs one poll cycle of
`startExpirateWorker().run()` / `expireKeys()`, decomposed into its
atomic store round trips: the election `MULTI`, `SMEMBERS`, the `PTTL`
batch, the removal transaction, the event emissions, and the token
`DEL`.  The lock keyspace is a fixed predicate `dead` (true where the
`PTTL` batch answers `-2`); the workers never write lock keys, only the
registry and the token. -/

/-- Program counter of one worker instance, carrying the values read
from the store so far (`SMEMBERS` result, computed `keysToExpire`). -/
inductive WPc
  | start
  | read
  | ttls (ks : List String)
  | srem (ks : List String)
  | emit (ks : List String)
  | release
  | done
deriving DecidableEq, Repr

/-- Shared state of the two-worker system: registry members, presence
of the leader token, both program counters, the emitted `expire`
resources in order, and a log of every committed removal transaction
(which worker removed which keys). -/
structure WorkerSys where
  reg : List String
  token : Bool
  a : WPc
  b : WPc
  ev : List String
  log : List (Bool × List String)
deriving DecidableEq, Repr

def pcOf (g : WorkerSys) (w : Bool) : WPc := if w then g.a else g.b

def setPc (g : WorkerSys) (w : Bool) (p : WPc) : WorkerSys :=
  if w then { g with a := p } else { g with b := p }

/-- One atomic store round trip by worker `w`, read off the source:
* `elect_win` / `elect_lose` — the election `MULTI` (`SETNX` token;
  the unconditional `PEXPIRE` touches only the token's expiry, which
  this timeless model does not track);
* `read_members` / `read_none` — `SMEMBERS` (`if (!keys.length) return`);
* `ttls_found` / `ttls_none` — the `PTTL` batch and the
  `keysToExpire` filter (`if (keysToExpire.length === 0) return`);
* `srem_commit` — the `WATCH`+`SREM` transaction;
* `emit_events` — the `asyncEmit("expire", parse(key))` batch;
* `release_token` — `DEL` of the leader token. -/
inductive WStep (dead : String → Bool) : WorkerSys → WorkerSys → Prop
  | elect_win (g : WorkerSys) (w : Bool) :
      pcOf g w = .start → g.token = false →
      WStep dead g { setPc g w .read with token := true }
  | elect_lose (g : WorkerSys) (w : Bool) :
      pcOf g w = .start → g.token = true →
      WStep dead g (setPc g w .done)
  | read_members (g : WorkerSys) (w : Bool) :
      pcOf g w = .read → g.reg ≠ [] →
      WStep dead g (setPc g w (.ttls g.reg))
  | read_none (g : WorkerSys) (w : Bool) :
      pcOf g w = .read → g.reg = [] →
      WStep dead g (setPc g w .release)
  | ttls_found (g : WorkerSys) (w : Bool) (ks : List String) :
      pcOf g w = .ttls ks → ks.filter dead ≠ [] →
      WStep dead g (setPc g w (.srem (ks.filter dead)))
  | ttls_none (g : WorkerSys) (w : Bool) (ks : List String) :
      pcOf g w = .ttls ks → ks.filter dead = [] →
      WStep dead g (setPc g w .release)
  | srem_commit (g : WorkerSys) (w : Bool) (ks : List String) :
      pcOf g w = .srem ks →
      WStep dead g { setPc g w (.emit ks) with
        reg := g.reg.filter (fun k => !decide (k ∈ ks)),
        log := g.log ++ [(w, ks)] }
  | emit_events (g : WorkerSys) (w : Bool) (ks : List String) :
      pcOf g w = .emit ks →
      WStep dead g { setPc g w .release with
        ev := g.ev ++ ks.map resourceKey.parse }
  | release_token (g : WorkerSys) (w : Bool) :
      pcOf g w = .release →
      WStep dead g { setPc g w .done with token := false }

/-- Both workers about to run their first cycle over registry `R`. -/
def workerInit (R : List String) : WorkerSys :=
  { reg := R, token := false, a := .start, b := .start, ev := [], log := [] }

/-- Reachable states of the two-worker system. -/
inductive WReach (dead : String → Bool) (R : List String) : WorkerSys → Prop
  | init : WReach dead R (workerInit R)
  | step {g g' : WorkerSys} :
      WReach dead R g → WStep dead g g' → WReach dead R g'

@[simp] theorem pcOf_setPc_self (g : WorkerSys) (w : Bool) (p : WPc) :
    pcOf (setPc g w p) w = p := by
  cases w <;> simp [pcOf, setPc]

@[simp] theorem setPc_reg (g : WorkerSys) (w : Bool) (p : WPc) :
    (setPc g w p).reg = g.reg := by cases w <;> rfl

@[simp] theorem setPc_token (g : WorkerSys) (w : Bool) (p : WPc) :
    (setPc g w p).token = g.token := by cases w <;> rfl

@[simp] theorem setPc_ev (g : WorkerSys) (w : Bool) (p : WPc) :
    (setPc g w p).ev = g.ev := by cases w <;> rfl

@[simp] theorem setPc_log (g : WorkerSys) (w : Bool) (p : WPc) :
    (setPc g w p).log = g.log := by cases w <;> rfl

theorem filter_live_dead (dead : String → Bool) (R : List String) :
    (R.filter (fun k => !dead k)).filter dead = [] := by
  induction R with
  | nil => rfl
  | cons x xs ih =>
    by_cases h : dead x <;> simp [List.filter_cons, h, ih]

theorem filter_not_mem_dead (dead : String → Bool) (R : List String) :
    R.filter (fun k => !decide (k ∈ R.filter dead)) =
      R.filter (fun k => !dead k) := by
  apply List.filter_congr
  intro x hx
  simp [List.mem_filter, hx]

theorem filter_live_of_none (dead : String → Bool) (R : List String)
    (h : R.filter dead = []) : R.filter (fun k => !dead k) = R := by
  apply List.filter_eq_self.mpr
  intro x hx
  have := List.filter_eq_nil_iff.mp h x hx
  simpa using this

/-- The removal log produced by one full first sweep over registry `R`
by worker `w`: empty when nothing had expired (the sweep skips the
transaction), otherwise the single committed removal. -/
def sweepLog (dead : String → Bool) (R : List String) (w : Bool) :
    List (Bool × List String) :=
  if R.filter dead = [] then [] else [(w, R.filter dead)]

/-- The idle shapes of the non-sweeping worker: not yet elected, or
already finished its cycle. -/
def OtherIdle (g : WorkerSys) (w : Bool) : Prop :=
  pcOf g (!w) = .start ∨ pcOf g (!w) = .done

/-- Invariant while worker `w` holds the token during the *first*
sweep: the other worker is idle and registry/trace reflect exactly how
far the sweep has progressed. -/
def SweeperInv (dead : String → Bool) (R : List String) (w : Bool)
    (g : WorkerSys) : Prop :=
  g.token = true ∧ OtherIdle g w ∧
  ((pcOf g w = .read ∧ g.reg = R ∧ g.ev = [] ∧ g.log = []) ∨
   (pcOf g w = .ttls R ∧ g.reg = R ∧ g.ev = [] ∧ g.log = []) ∨
   (R.filter dead ≠ [] ∧ pcOf g w = .srem (R.filter dead) ∧
     g.reg = R ∧ g.ev = [] ∧ g.log = []) ∨
   (R.filter dead ≠ [] ∧ pcOf g w = .emit (R.filter dead) ∧
     g.reg = R.filter (fun k => !dead k) ∧ g.ev = [] ∧
     g.log = [(w, R.filter dead)]) ∨
   (pcOf g w = .release ∧ g.reg = R.filter (fun k => !dead k) ∧
     g.ev = (R.filter dead).map resourceKey.parse ∧
     g.log = sweepLog dead R w))

/-- Invariant once worker `w` has completed the first sweep: the
expired keys are gone, each produced exactly one `expire`, and the
other worker is idle or running a second, necessarily empty sweep. -/
def DoneInv (dead : String → Bool) (R : List String) (w : Bool)
    (g : WorkerSys) : Prop :=
  pcOf g w = .done ∧
  g.reg = R.filter (fun k => !dead k) ∧
  g.ev = (R.filter dead).map resourceKey.parse ∧
  g.log = sweepLog dead R w ∧
  ((g.token = false ∧ OtherIdle g w) ∨
   (g.token = true ∧
     (pcOf g (!w) = .read ∨
      pcOf g (!w) = .ttls (R.filter (fun k => !dead k)) ∨
      pcOf g (!w) = .release)))

/-- Global invariant of the two-worker system. -/
def WInv (dead : String → Bool) (R : List String) (g : WorkerSys) : Prop :=
  (g.token = false ∧ g.a = .start ∧ g.b = .start ∧ g.reg = R ∧
    g.ev = [] ∧ g.log = []) ∨
  (∃ w, SweeperInv dead R w g) ∨
  (∃ w, DoneInv dead R w g)

theorem filter_self_mem_or (dead : String → Bool) (R : List String) :
    R.filter (fun k => !decide (k ∈ R) || !dead k) =
      R.filter (fun k => !dead k) := by
  apply List.filter_congr
  intro x hx
  simp [hx]

set_option maxHeartbeats 2000000 in
theorem winv_preserved (dead : String → Bool) (R : List String)
    {g g' : WorkerSys} (hinv : WInv dead R g) (hs : WStep dead g g') :
    WInv dead R g' := by
  cases hs with
  | elect_win w hpc htok =>
    rcases hinv with ⟨hI1, hI2, hI3, hI4, hI5, hI6⟩ |
      ⟨wI, hT, hO, hsub⟩ | ⟨wI, hd, hreg, hev, hlog, hrest⟩
    · refine .inr (.inl ⟨w, ?_⟩)
      unfold SweeperInv OtherIdle
      cases w <;> simp_all [pcOf, setPc]
    · rw [hT] at htok; simp at htok
    · rcases hrest with ⟨htokF, hidle⟩ | ⟨htokT, hactive⟩
      · refine .inr (.inr ⟨wI, ?_⟩)
        unfold DoneInv OtherIdle at *
        rcases hidle with h | h <;>
          cases w <;> cases wI <;> simp_all [pcOf, setPc]
      · rw [htokT] at htok; simp at htok
  | elect_lose w hpc htok =>
    rcases hinv with ⟨hI1, hI2, hI3, hI4, hI5, hI6⟩ |
      ⟨wI, hT, hO, hsub⟩ | ⟨wI, hd, hreg, hev, hlog, hrest⟩
    · rw [hI1] at htok; simp at htok
    · refine .inr (.inl ⟨wI, ?_⟩)
      unfold SweeperInv OtherIdle at *
      rcases hO with h | h <;> rcases hsub with hc | hc | hc | hc | hc <;>
        cases w <;> cases wI <;> simp_all [pcOf, setPc]
    · rcases hrest with ⟨htokF, hidle⟩ | ⟨htokT, hactive⟩
      · rw [htokF] at htok; simp at htok
      · refine .inr (.inr ⟨wI, ?_⟩)
        unfold DoneInv OtherIdle at *
        rcases hactive with h | h | h <;>
          cases w <;> cases wI <;> simp_all [pcOf, setPc]
  | read_members w hpc hne =>
    rcases hinv with ⟨hI1, hI2, hI3, hI4, hI5, hI6⟩ |
      ⟨wI, hT, hO, hsub⟩ | ⟨wI, hd, hreg, hev, hlog, hrest⟩
    · cases w <;> simp_all [pcOf]
    · refine .inr (.inl ⟨wI, ?_⟩)
      unfold SweeperInv OtherIdle at *
      rcases hO with h | h <;> rcases hsub with hc | hc | hc | hc | hc <;>
        cases w <;> cases wI <;> simp_all [pcOf, setPc]
    · refine .inr (.inr ⟨wI, ?_⟩)
      unfold DoneInv OtherIdle at *
      rcases hrest with ⟨htokF, hidle⟩ | ⟨htokT, hactive⟩
      · rcases hidle with h | h <;>
          cases w <;> cases wI <;> simp_all [pcOf, setPc]
      · rcases hactive with h | h | h <;>
          cases w <;> cases wI <;> simp_all [pcOf, setPc]
  | read_none w hpc hreg0 =>
    rcases hinv with ⟨hI1, hI2, hI3, hI4, hI5, hI6⟩ |
      ⟨wI, hT, hO, hsub⟩ | ⟨wI, hd, hreg, hev, hlog, hrest⟩
    · cases w <;> simp_all [pcOf]
    · refine .inr (.inl ⟨wI, ?_⟩)
      unfold SweeperInv OtherIdle at *
      rcases hO with h | h <;> rcases hsub with hc | hc | hc | hc | hc <;>
        cases w <;> cases wI <;> simp_all [pcOf, setPc, sweepLog]
    · refine .inr (.inr ⟨wI, ?_⟩)
      unfold DoneInv OtherIdle at *
      rcases hrest with ⟨htokF, hidle⟩ | ⟨htokT, hactive⟩
      · rcases hidle with h | h <;>
          cases w <;> cases wI <;> simp_all [pcOf, setPc]
      · rcases hactive with h | h | h <;>
          cases w <;> cases wI <;> simp_all [pcOf, setPc]
  | ttls_found w ks hpc hne =>
    rcases hinv with ⟨hI1, hI2, hI3, hI4, hI5, hI6⟩ |
      ⟨wI, hT, hO, hsub⟩ | ⟨wI, hd, hreg, hev, hlog, hrest⟩
    · cases w <;> simp_all [pcOf]
    · refine .inr (.inl ⟨wI, ?_⟩)
      unfold SweeperInv OtherIdle at *
      rcases hO with h | h <;> rcases hsub with hc | hc | hc | hc | hc <;>
        cases w <;> cases wI <;> simp_all [pcOf, setPc]
    · rcases hrest with ⟨htokF, hidle⟩ | ⟨htokT, hactive⟩
      · rcases hidle with h | h <;>
          cases w <;> cases wI <;> simp_all [pcOf, setPc]
      · rcases hactive with h | h | h <;>
          cases w <;> cases wI <;>
            simp_all [pcOf, setPc, filter_live_dead] <;>
          (obtain ⟨x, ⟨hx1, hx2⟩, hx3⟩ := hne; rw [hx2] at hx3;
            exact absurd hx3 (by simp))
  | ttls_none w ks hpc hE =>
    rcases hinv with ⟨hI1, hI2, hI3, hI4, hI5, hI6⟩ |
      ⟨wI, hT, hO, hsub⟩ | ⟨wI, hd, hreg, hev, hlog, hrest⟩
    · cases w <;> simp_all [pcOf]
    · refine .inr (.inl ⟨wI, ?_⟩)
      unfold SweeperInv OtherIdle at *
      rcases hO with h | h <;> rcases hsub with hc | hc | hc | hc | hc <;>
        cases w <;> cases wI <;>
          simp_all [pcOf, setPc, sweepLog, filter_live_of_none]
    · refine .inr (.inr ⟨wI, ?_⟩)
      unfold DoneInv OtherIdle at *
      rcases hrest with ⟨htokF, hidle⟩ | ⟨htokT, hactive⟩
      · rcases hidle with h | h <;>
          cases w <;> cases wI <;> simp_all [pcOf, setPc]
      · rcases hactive with h | h | h <;>
          cases w <;> cases wI <;> simp_all [pcOf, setPc]
  | srem_commit w ks hpc =>
    rcases hinv with ⟨hI1, hI2, hI3, hI4, hI5, hI6⟩ |
      ⟨wI, hT, hO, hsub⟩ | ⟨wI, hd, hreg, hev, hlog, hrest⟩
    · cases w <;> simp_all [pcOf]
    · refine .inr (.inl ⟨wI, ?_⟩)
      unfold SweeperInv OtherIdle at *
      rcases hO with h | h <;> rcases hsub with hc | hc | hc | hc | hc <;>
        cases w <;> cases wI <;>
          simp_all [pcOf, setPc, filter_not_mem_dead, filter_self_mem_or]
    · rcases hrest with ⟨htokF, hidle⟩ | ⟨htokT, hactive⟩
      · rcases hidle with h | h <;>
          cases w <;> cases wI <;> simp_all [pcOf, setPc]
      · rcases hactive with h | h | h <;>
          cases w <;> cases wI <;> simp_all [pcOf, setPc]
  | emit_events w ks hpc =>
    rcases hinv with ⟨hI1, hI2, hI3, hI4, hI5, hI6⟩ |
      ⟨wI, hT, hO, hsub⟩ | ⟨wI, hd, hreg, hev, hlog, hrest⟩
    · cases w <;> simp_all [pcOf]
    · refine .inr (.inl ⟨wI, ?_⟩)
      unfold SweeperInv OtherIdle at *
      rcases hO with h | h <;> rcases hsub with hc | hc | hc | hc | hc <;>
        cases w <;> cases wI <;> simp_all [pcOf, setPc, sweepLog] <;>
        (obtain ⟨x, hx, hdx⟩ := hc.1;
          rw [if_neg (fun hall => by
            rw [hall x hx] at hdx; exact absurd hdx (by simp))])
    · rcases hrest with ⟨htokF, hidle⟩ | ⟨htokT, hactive⟩
      · rcases hidle with h | h <;>
          cases w <;> cases wI <;> simp_all [pcOf, setPc]
      · rcases hactive with h | h | h <;>
          cases w <;> cases wI <;> simp_all [pcOf, setPc]
  | release_token w hpc =>
    rcases hinv with ⟨hI1, hI2, hI3, hI4, hI5, hI6⟩ |
      ⟨wI, hT, hO, hsub⟩ | ⟨wI, hd, hreg, hev, hlog, hrest⟩
    · cases w <;> simp_all [pcOf]
    · refine .inr (.inr ⟨wI, ?_⟩)
      unfold SweeperInv DoneInv OtherIdle at *
      rcases hO with h | h <;> rcases hsub with hc | hc | hc | hc | hc <;>
        cases w <;> cases wI <;> simp_all [pcOf, setPc]
    · refine .inr (.inr ⟨wI, ?_⟩)
      unfold DoneInv OtherIdle at *
      rcases hrest with ⟨htokF, hidle⟩ | ⟨htokT, hactive⟩
      · rcases hidle with h | h <;>
          cases w <;> cases wI <;> simp_all [pcOf, setPc]
      · rcases hactive with h | h | h <;>
          cases w <;> cases wI <;> simp_all [pcOf, setPc]

theorem winv_reach (dead : String → Bool) (R : List String)
    {g : WorkerSys} (h : WReach dead R g) : WInv dead R g := by
  induction h with
  | init => exact .inl ⟨rfl, rfl, rfl, rfl, rfl, rfl⟩
  | step _ hs ih => exact winv_preserved dead R ih hs

theorem parse_inj_formatted {k1 k2 : String}
    (h1 : ∃ id, k1 = resourceKey.format (.str id))
    (h2 : ∃ id, k2 = resourceKey.format (.str id))
    (h : resourceKey.parse k1 = resourceKey.parse k2) : k1 = k2 := by
  obtain ⟨i1, rfl⟩ := h1
  obtain ⟨i2, rfl⟩ := h2
  rw [parse_format, parse_format] at h
  simp only [JSVal.toStr] at h
  rw [h]

/-- C9: with two worker instances interleaving over one store, in every
reachable state at most one removal transaction ever committed per
expired key and at most one `expire` event was emitted for it; and once
both instances finished their cycle, the event trace is exactly one
`expire` per expired key (in registry order) and exactly one instance
logged the removal of each expired key.  `dead` marks the registry
members whose underlying lock key has vanished; `hwf` states that the
registry holds only keys produced by the codec (as `lock` guarantees).
-/
theorem claim_C9_single_sweeper (dead : String → Bool) (R : List String)
    (g : WorkerSys) (hr : WReach dead R g) (hnd : R.Nodup)
    (hwf : ∀ k ∈ R, ∃ id : String, k = resourceKey.format (.str id)) :
    (g.log = [] ∨ ∃ w, g.log = [(w, R.filter dead)]) ∧
    (g.ev = [] ∨ g.ev = (R.filter dead).map resourceKey.parse) ∧
    (∀ k ∈ R.filter dead,
      g.ev.count (resourceKey.parse k) ≤ 1 ∧
      (g.log.filter (fun e => decide (k ∈ e.2))).length ≤ 1) ∧
    (g.a = .done ∧ g.b = .done →
      g.ev = (R.filter dead).map resourceKey.parse ∧
      ∀ k ∈ R.filter dead,
        g.ev.count (resourceKey.parse k) = 1 ∧
        ∃ w, g.log.filter (fun e => decide (k ∈ e.2)) =
          [(w, R.filter dead)]) := by
  have hEnd : (R.filter dead).Nodup := hnd.filter _
  have hmapnd : ((R.filter dead).map resourceKey.parse).Nodup := by
    refine hEnd.map_on ?_
    intro x hx y hy hxy
    exact parse_inj_formatted (hwf x (List.mem_of_mem_filter hx))
      (hwf y (List.mem_of_mem_filter hy)) hxy
  have hcnt1 : ∀ k ∈ R.filter dead,
      ((R.filter dead).map resourceKey.parse).count
        (resourceKey.parse k) = 1 := by
    intro k hk
    exact List.count_eq_one_of_mem hmapnd (List.mem_map_of_mem _ hk)
  have hinv := winv_reach dead R hr
  have hshape : (g.log = [] ∨ ∃ w, g.log = [(w, R.filter dead)]) ∧
      (g.ev = [] ∨ g.ev = (R.filter dead).map resourceKey.parse) ∧
      (g.a = .done ∧ g.b = .done →
        g.ev = (R.filter dead).map resourceKey.parse ∧
        ∃ w, g.log = sweepLog dead R w) := by
    rcases hinv with ⟨hI1, hI2, hI3, hI4, hI5, hI6⟩ |
      ⟨wI, hT, hO, hsub⟩ | ⟨wI, hd, hreg, hev, hlog, hrest⟩
    · refine ⟨.inl hI6, .inl hI5, ?_⟩
      rintro ⟨ha, -⟩
      rw [hI2] at ha
      cases ha
    · have hno : ¬(g.a = .done ∧ g.b = .done) := by
        rintro ⟨ha, hb⟩
        rcases hsub with hc | hc | hc | hc | hc <;>
          cases wI <;> simp_all [pcOf]
      rcases hsub with hc | hc | hc | hc | hc
      · exact ⟨.inl hc.2.2.2, .inl hc.2.2.1, fun h => absurd h hno⟩
      · exact ⟨.inl hc.2.2.2, .inl hc.2.2.1, fun h => absurd h hno⟩
      · exact ⟨.inl hc.2.2.2.2, .inl hc.2.2.2.1, fun h => absurd h hno⟩
      · exact ⟨.inr ⟨wI, hc.2.2.2.2⟩, .inl hc.2.2.2.1,
          fun h => absurd h hno⟩
      · refine ⟨?_, .inr hc.2.2.1, fun h => absurd h hno⟩
        rw [hc.2.2.2]
        unfold sweepLog
        by_cases hE : R.filter dead = []
        · rw [if_pos hE]; exact .inl rfl
        · rw [if_neg hE]; exact .inr ⟨wI, rfl⟩
    · refine ⟨?_, .inr hev, fun _ => ⟨hev, ⟨wI, hlog⟩⟩⟩
      rw [hlog]
      unfold sweepLog
      by_cases hE : R.filter dead = []
      · rw [if_pos hE]; exact .inl rfl
      · rw [if_neg hE]; exact .inr ⟨wI, rfl⟩
  refine ⟨hshape.1, hshape.2.1, ?_, ?_⟩
  · intro k hk
    constructor
    · rcases hshape.2.1 with h | h
      · simp [h]
      · rw [h, hcnt1 k hk]
    · rcases hshape.1 with h | ⟨w, h⟩
      · simp [h]
      · rw [h]
        exact le_trans (List.length_filter_le _ _) (by simp)
  · intro hdone
    obtain ⟨hev, w, hlog⟩ := hshape.2.2 hdone
    refine ⟨hev, ?_⟩
    intro k hk
    have hE : R.filter dead ≠ [] := by
      intro h0
      rw [h0] at hk
      cases hk
    rw [sweepLog, if_neg hE] at hlog
    refine ⟨by rw [hev]; exact hcnt1 k hk, ⟨w, ?_⟩⟩
    rw [hlog]
    simp [hk]

/-- Expired-key predicate of the C9 scenario: only
`lock:resource:x` has vanished. -/
def c9dead : String → Bool := fun k => decide (k = "lock:resource:x")

/-- Registry of the C9 scenario. -/
def c9R : List String := ["lock:resource:x", "lock:resource:y"]

/-- Final state of the C9 scenario: worker A swept (removed the dead
key, one `expire "x"`), worker B ran a second, empty sweep. -/
def c9Final : WorkerSys :=
  { reg := ["lock:resource:y"], token := false, a := .done, b := .done
    ev := ["x"], log := [(true, ["lock:resource:x"])] }

theorem claim_C9_witness :
    c9R.Nodup ∧ WReach c9dead c9R c9Final ∧
    ((c9Final.log = [] ∨ ∃ w, c9Final.log = [(w, c9R.filter c9dead)]) ∧
    (c9Final.ev = [] ∨
      c9Final.ev = (c9R.filter c9dead).map resourceKey.parse) ∧
    (∀ k ∈ c9R.filter c9dead,
      c9Final.ev.count (resourceKey.parse k) ≤ 1 ∧
      (c9Final.log.filter (fun e => decide (k ∈ e.2))).length ≤ 1) ∧
    (c9Final.a = .done ∧ c9Final.b = .done →
      c9Final.ev = (c9R.filter c9dead).map resourceKey.parse ∧
      ∀ k ∈ c9R.filter c9dead,
        c9Final.ev.count (resourceKey.parse k) = 1 ∧
        ∃ w, c9Final.log.filter (fun e => decide (k ∈ e.2)) =
          [(w, c9R.filter c9dead)])) := by
  have h0 : WReach c9dead c9R (workerInit c9R) := .init
  have h1 := WReach.step h0 (.elect_win (workerInit c9R) true rfl rfl)
  have h2 := WReach.step h1 (.read_members _ true rfl (by decide))
  have h3 := WReach.step h2 (.ttls_found _ true c9R rfl (by decide))
  have h4 := WReach.step h3 (.srem_commit _ true
    (c9R.filter c9dead) rfl)
  have h5 := WReach.step h4 (.emit_events _ true
    (c9R.filter c9dead) rfl)
  have h6 := WReach.step h5 (.release_token _ true rfl)
  have h7 := WReach.step h6 (.elect_win _ false rfl rfl)
  have h8 := WReach.step h7 (.read_members _ false rfl (by decide))
  have h9 := WReach.step h8 (.ttls_none _ false ["lock:resource:y"]
    rfl (by decide))
  have h10 := WReach.step h9 (.release_token _ false rfl)
  have hreach : WReach c9dead c9R c9Final := h10
  have hwf : ∀ k ∈ c9R, ∃ id : String, k = resourceKey.format (.str id) := by
    intro k hk
    simp only [c9R, List.mem_cons, List.not_mem_nil, or_false] at hk
    rcases hk with rfl | rfl
    · exact ⟨"x", rfl⟩
    · exact ⟨"y", rfl⟩
  exact ⟨by decide, hreach,
    claim_C9_single_sweeper c9dead c9R c9Final hreach (by decide) hwf⟩
